import Mathlib

set_option maxRecDepth 100000

/-!
Verification of the DacESP32 library (file src/DacESP32.cpp / src/DacESP32.h).

The development models, as a shallow embedding:

* the cosine-wave frequency solver `DacESP32::calcFrequSettings` (nested
  pruned search over a clock divider and a frequency-step register),
* the per-object controller state (`DacESP32` members) together with the
  class-static registry state (`m_objectCount`, `m_cwFrequency`,
  `m_ch0_locked`, `m_ch1_locked`),
* the state-changing public operations the claims concern (constructor,
  destructor, `outputVoltage`, `outputCW`, `setCwFrequency`, `setCwScale`,
  `setCwOffset`, `setCwPhase`).

Build options are taken at their defaults, as in an unmodified build:
`CW_FREQUENCY_HIGH_ACCURACY` enabled, `SW_FSTEP_MAX = 256`,
`CK8M_DIV_MAX = 7`, `CK8M = 8000000`, `CHANNEL_VOLTAGE_MAX = 3.30`.

Machine integers are modelled as `ℕ`/`ℤ` with explicit reduction modulo
`2^32` exactly where the C computation wraps around.  The C code computes
the achieved cosine frequency in IEEE-754 binary32 (`float`) arithmetic;
the development contains an executable binary32 model (mantissa/exponent
pairs over `ℕ`/`ℤ`, round to nearest, ties to even) and proves, by
exhaustive check over the whole search grid, that the `float` computation
coincides with exact natural-number division there, which is what the
main solver model uses.
-/

/-! ## Constants (src/DacESP32.h) -/

def CK8M : ℕ := 8000000

def CK8M_DIV_MAX : ℕ := 7

def SW_FSTEP_MAX : ℕ := 256

/-- Modulus of `uint32_t` arithmetic, `2^32`. -/
def U32 : ℕ := 4294967296

/-- First value that is negative as an `int32_t`, `2^31`. -/
def I32 : ℕ := 2147483648

/-! ## A binary32 (`float`) model over `ℕ`/`ℤ`

The C code computes the achieved cosine frequency and the
`outputVoltage(float)` mapping in IEEE-754 binary32 arithmetic.  A
(finite, nonzero) binary32 value is `m * 2^(e-23)` with a 24-bit
significand `2^23 ≤ |m| < 2^24`; the model represents it as the pair
`⟨m, e⟩` (zero as `⟨0, 0⟩`).  All inputs arising in this library sit far
inside the normal range, so neither subnormals nor overflow need to be
represented.  Everything is defined by structural recursion over `ℕ`/`ℤ`,
so concrete computations evaluate under `decide`. -/

/-- Floor of the base-2 logarithm for `n ≥ 1`, by structural recursion on
a fuel argument. -/
def log2Aux : ℕ → ℕ → ℕ
  | 0, _ => 0
  | fuel + 1, n => if n ≤ 1 then 0 else log2Aux fuel (n / 2) + 1

/-- Floor of the base-2 logarithm for `n ≥ 1` (and 0 at 0). -/
def natLog2 (n : ℕ) : ℕ := log2Aux n n

/-- Round `num / den` to the nearest integer, ties to even. -/
def rneNat (num den : ℕ) : ℕ :=
  let q := num / den
  let r := num % den
  if 2 * r < den then q
  else if den < 2 * r then q + 1
  else if q % 2 = 0 then q else q + 1

/-- A binary32 value `m * 2^(e-23)`; normal iff `2^23 ≤ |m| < 2^24`
(or `m = 0`). -/
structure F where
  m : ℤ
  e : ℤ
deriving DecidableEq

def Fzero : F := ⟨0, 0⟩

/-- The exact rational value of a binary32 datum. -/
def Fval (x : F) : ℚ :=
  if 23 ≤ x.e then (x.m : ℚ) * 2 ^ (x.e - 23).toNat
  else (x.m : ℚ) / 2 ^ (23 - x.e).toNat

/-- A normal (or zero) binary32 datum. -/
def Fnormal (x : F) : Prop := x.m = 0 ∨ (2 ^ 23 ≤ x.m.natAbs ∧ x.m.natAbs < 2 ^ 24)

/-- The `float` comparison `x < y` (exact, as in IEEE-754), computed by
bringing both values to the common scale `2^(min e - 23)`. -/
def Flt (x y : F) : Prop :=
  x.m * 2 ^ (x.e - min x.e y.e).toNat < y.m * 2 ^ (y.e - min x.e y.e).toNat

instance (x y : F) : Decidable (Flt x y) := by
  unfold Flt
  infer_instance

/-- Exact conversion `ℕ → float` for `n < 2^24` (the only conversions the
modelled code performs: `CK8M`, `65536`, `1 + div`); `uint32_t` to `float`
conversion is exact there. -/
def FofNat (n : ℕ) : F :=
  if n = 0 then Fzero else ⟨(n * 2 ^ (23 - natLog2 n) : ℕ), (natLog2 n : ℤ)⟩

/-- binary32 division (round to nearest, ties to even), for a dividend that
is zero or normal and a positive normal divisor. -/
def Fdiv (x y : F) : F :=
  if x.m = 0 then Fzero
  else
    let a := x.m.natAbs
    let b := y.m.natAbs
    let p := if b ≤ a then (rneNat (a * 2 ^ 23) b, x.e - y.e) else (rneNat (a * 2 ^ 24) b, x.e - y.e - 1)
    let p := if p.1 = 2 ^ 24 then (2 ^ 23, p.2 + 1) else p
    ⟨if x.m < 0 then -(p.1 : ℤ) else (p.1 : ℤ), p.2⟩

/-- binary32 multiplication of a nonnegative normal (or zero) value by a
small natural number (round to nearest, ties to even). -/
def FmulNat (x : F) (s : ℕ) : F :=
  if x.m ≤ 0 ∨ s = 0 then Fzero
  else
    let n := x.m.toNat * s
    let L := natLog2 n
    if L ≤ 23 then ⟨(n : ℤ), x.e⟩
    else
      let mm := rneNat n (2 ^ (L - 23))
      if mm = 2 ^ 24 then ⟨2 ^ 23, x.e + (L - 23) + 1⟩ else ⟨(mm : ℤ), x.e + (L - 23)⟩

/-- The C cast of a nonnegative `float` to an unsigned integer type:
truncation toward zero. -/
def Ftrunc (x : F) : ℕ :=
  if x.m < 0 then 0
  else if 23 ≤ x.e then x.m.toNat * 2 ^ (x.e - 23).toNat
  else x.m.toNat / 2 ^ (23 - x.e).toNat

/-! ## The CW frequency solver (`DacESP32::calcFrequSettings`) -/

/-- The achieved cosine-wave frequency for a divider/step pair:
`fcw = (uint32_t)(stepSizeTemp * fstep)` with
`stepSizeTemp = ((float)CK8M / (1 + div)) / 65536UL`.

The `float` computation is modelled exactly by natural division here:
`fcwFloat_eq_fcw` below checks, over every divider and step the search can
ever evaluate, that the binary32 computation yields exactly
`CK8M * fstep / ((1 + div) * 65536)`. -/
def fcw (div fstep : ℕ) : ℕ := CK8M * fstep / ((1 + div) * 65536)

/-- The same quantity computed step by step in binary32 arithmetic, as the
C code does: `stepSizeTemp = ((float)CK8M / (1 + div)) / 65536UL` followed
by `(uint32_t)(stepSizeTemp * fstep)`. -/
def fcwFloat (div fstep : ℕ) : ℕ :=
  Ftrunc (FmulNat (Fdiv (Fdiv (FofNat CK8M) (FofNat (1 + div))) (FofNat 65536)) fstep)

/-- True absolute deviation `|v - f|` of an achieved frequency `v` from the
target `f` (the quantity the specification speaks about). -/
def rdev (f v : ℕ) : ℕ := if v ≤ f then f - v else v - f

/-- The deviation as the C code computes it:
`(uint32_t)abs((int)(fcw - frequency))`, i.e. with `uint32_t` wraparound in
the subtraction and a two-complement reading of the result
(`abs(INT_MIN)` is modelled as `2^31`, the value produced by the usual
wrap-around behaviour). -/
def udev (f v : ℕ) : ℕ :=
  let d := (v + (U32 - f % U32)) % U32
  if d < I32 then d else U32 - d

/-- Reading of a `uint32_t` value as an `int32_t` (two-complement). -/
def toInt32 (n : ℕ) : ℤ :=
  if n % U32 < I32 then ((n % U32 : ℕ) : ℤ) else ((n % U32 : ℕ) : ℤ) - (U32 : ℤ)

/-- The mutable locals of `calcFrequSettings`: the best deviation so far
(`deltaAbs`), the best pair so far (`clk8mDiv`, `swfstep`), and a marker
recording that `goto end` was taken because `deltaAbs == 0`. -/
structure SState where
  deltaAbs : ℕ
  clk8mDiv : ℕ
  swfstep : ℕ
  exactHit : Bool
deriving DecidableEq

/-- The inner loop of `calcFrequSettings`:
`for (uint16_t fstep = 1; fstep <= SW_FSTEP_MAX; fstep++)`, the first
argument counting the remaining iterations.  Faithful to the source:
the loop breaks as soon as `fcw > frequency + deltaAbs` (`uint32_t`
addition), records a candidate only when its (wrapped) deviation is
strictly below `deltaAbs`, and jumps out of both loops when `deltaAbs`
reaches 0. -/
def innerScan (f div : ℕ) : ℕ → ℕ → SState → SState
  | 0, _, st => st
  | r + 1, fstep, st =>
    if fcw div fstep > (f + st.deltaAbs) % U32 then st
    else if udev f (fcw div fstep) < st.deltaAbs then
      if udev f (fcw div fstep) = 0 then SState.mk 0 div fstep true
      else innerScan f div r (fstep + 1) (SState.mk (udev f (fcw div fstep)) div fstep st.exactHit)
    else
      if st.deltaAbs = 0 then SState.mk st.deltaAbs st.clk8mDiv st.swfstep true
      else innerScan f div r (fstep + 1) st

/-- The outer loop of `calcFrequSettings`:
`for (div = 0; div <= divMax; )` with `divMax = CK8M_DIV_MAX`; after each
inner scan the divider is incremented and the loop breaks when even the
maximal step of the next divider falls short of
`(int32_t)(frequency - deltaAbs)`. -/
def outerScan (f : ℕ) : ℕ → ℕ → SState → SState
  | 0, _, st => st
  | r + 1, div, st =>
    if (innerScan f div SW_FSTEP_MAX 1 st).exactHit then innerScan f div SW_FSTEP_MAX 1 st
    else if toInt32 (fcw (div + 1) SW_FSTEP_MAX) <
        toInt32 (f + (U32 - (innerScan f div SW_FSTEP_MAX 1 st).deltaAbs % U32)) then
      innerScan f div SW_FSTEP_MAX 1 st
    else if div + 1 ≤ CK8M_DIV_MAX then outerScan f r (div + 1) (innerScan f div SW_FSTEP_MAX 1 st)
    else innerScan f div SW_FSTEP_MAX 1 st

/-- Model of `DacESP32::calcFrequSettings` (default build options).  `none` models
the `ESP_ERR_NOT_SUPPORTED` return (`clk8mDiv == 0 && swfstep == 0`);
`some (clkdiv, sw_fstep)` models the `ESP_OK` return together with the two
out-parameters.  The initial `deltaAbs` is
`(uint32_t)(((float)CK8M / 65536UL) + 1) = CK8M / 65536 + 1 = 123`
(both `float` operations are exact there). -/
def calcFrequSettings (frequency : ℕ) : Option (ℕ × ℕ) :=
  let st := outerScan frequency (CK8M_DIV_MAX + 1) 0 (SState.mk (CK8M / 65536 + 1) 0 0 false)
  if st.clk8mDiv = 0 ∧ st.swfstep = 0 then none else some (st.clk8mDiv, st.swfstep)

/-- Lexicographic (scan) order on (divider, step) pairs: the order in which
the nested search visits the grid. -/
def pairLexLt : ℕ × ℕ → ℕ × ℕ → Prop
  | (d1, s1), (d2, s2) => d1 < d2 ∨ (d1 = d2 ∧ s1 < s2)

instance (p q : ℕ × ℕ) : Decidable (pairLexLt p q) := by
  rcases p with ⟨d1, s1⟩
  rcases q with ⟨d2, s2⟩
  unfold pairLexLt
  infer_instance

/-! ## The `float` computation of `fcw` coincides with natural division

Exhaustive check over every divider and step the search can evaluate
(dividers 0..7 inside the loop, divider 8 in the final pruning test, steps
0..256).  This justifies using `fcw` in the solver model. -/

set_option maxHeartbeats 4000000 in
theorem fcwFloat_eq_fcw : ∀ d < 9, ∀ s < 257, fcwFloat d s = fcw d s := by decide

/-- The initial `deltaAbs = ((float)CK8M / 65536UL) + 1`, truncated to
`uint32_t`, equals `CK8M / 65536 + 1 = 123`: the `float` quotient is
`122.0703125` exactly, and adding `1.0f` is also exact. -/
theorem initial_deltaAbs_float :
    Ftrunc (Fdiv (FofNat CK8M) (FofNat 65536)) + 1 = CK8M / 65536 + 1 := by decide

/-! ## Arithmetic facts about the search grid -/

theorem fcw_mono_step {d s t : ℕ} (h : s ≤ t) : fcw d s ≤ fcw d t :=
  Nat.div_le_div_right (Nat.mul_le_mul_left _ h)

theorem fcw_anti_div {d d2 s : ℕ} (h : d ≤ d2) : fcw d2 s ≤ fcw d s :=
  Nat.div_le_div_left (Nat.mul_le_mul_right _ (by omega)) (by positivity)

theorem fcw_le_31250 {d s : ℕ} (hs : s ≤ 256) : fcw d s ≤ 31250 := by
  have h1 : fcw d s ≤ fcw 0 s := fcw_anti_div (Nat.zero_le d)
  have h2 : fcw 0 s ≤ fcw 0 256 := fcw_mono_step hs
  have h3 : fcw 0 256 = 31250 := by decide
  omega

/-- For a target below `2^31` and an achieved frequency in the reachable
range, the deviation the code computes (with `uint32_t` wraparound) is the
true absolute deviation. -/
theorem udev_eq_rdev {f v : ℕ} (hf : f < I32) (hv : v < I32) : udev f v = rdev f v := by
  simp only [I32] at hf hv
  unfold udev rdev
  simp only [U32, I32]
  rw [Nat.mod_eq_of_lt (show f < 4294967296 by omega)]
  rcases le_or_lt f v with h | h
  · have hrw : v + (4294967296 - f) = (v - f) + 4294967296 := by omega
    rw [hrw, Nat.add_mod_right, Nat.mod_eq_of_lt (by omega)]
    split_ifs <;> omega
  · have hlt : v + (4294967296 - f) < 4294967296 := by omega
    rw [Nat.mod_eq_of_lt hlt]
    split_ifs <;> omega

theorem toInt32_small {v : ℕ} (hv : v < I32) : toInt32 v = (v : ℤ) := by
  simp only [I32] at hv
  unfold toInt32
  simp only [U32, I32]
  rw [Nat.mod_eq_of_lt (show v < 4294967296 by omega)]
  rw [if_pos (by omega)]

/-- Reading `frequency - deltaAbs` (computed in `uint32_t`) as an
`int32_t` yields the mathematical difference, for targets below `2^31`
and small `deltaAbs`. -/
theorem toInt32_sub {f Δ : ℕ} (hf : f < I32) (hΔ : Δ ≤ 123) :
    toInt32 (f + (U32 - Δ % U32)) = (f : ℤ) - (Δ : ℤ) := by
  simp only [I32] at hf
  unfold toInt32
  simp only [U32, I32]
  rw [Nat.mod_eq_of_lt (show Δ < 4294967296 by omega)]
  rcases le_or_lt Δ f with h | h
  · have hrw : f + (4294967296 - Δ) = (f - Δ) + 4294967296 := by omega
    rw [hrw, Nat.add_mod_right, Nat.mod_eq_of_lt (by omega)]
    rw [if_pos (by omega)]
    omega
  · have hlt : f + (4294967296 - Δ) < 4294967296 := by omega
    rw [Nat.mod_eq_of_lt hlt]
    rw [if_neg (by omega)]
    omega

/-! ## Invariants of the search -/

/-- Invariant carried by the solver state throughout the search, for a
target `f < 2^31` (where the wrapped deviation is the true deviation):
the best deviation never exceeds the initial 123; an untouched state still
holds the initial `(0, 0)` pair and deviation 123; the `goto end` marker is
set only at deviation 0; and once a candidate is recorded, the stored pair
lies in the search grid, its true deviation equals `deltaAbs`, and every
grid pair scanned before it (scan order = lexicographic order) has
strictly larger deviation. -/
def InvS (f : ℕ) (st : SState) : Prop :=
  st.deltaAbs ≤ 123 ∧
  (st.swfstep = 0 → st.clk8mDiv = 0 ∧ st.deltaAbs = 123) ∧
  (st.exactHit = true → st.deltaAbs = 0) ∧
  (1 ≤ st.swfstep →
    st.clk8mDiv ≤ 7 ∧ st.swfstep ≤ 256 ∧
    rdev f (fcw st.clk8mDiv st.swfstep) = st.deltaAbs ∧
    (∀ d s, 1 ≤ s → s ≤ 256 → pairLexLt (d, s) (st.clk8mDiv, st.swfstep) →
      st.deltaAbs < rdev f (fcw d s)))

/-- Correctness of the inner step loop: it preserves the invariant, never
increases the best deviation, and accounts for all remaining steps of the
current divider (each is either visited or pruned away with a strictly
larger deviation). -/
theorem innerScan_spec (f div : ℕ) (hf : f < I32) (hdiv : div ≤ 7) :
    ∀ r fstep st, 1 ≤ fstep → fstep + r = 257 → InvS f st →
      (∀ d s, d < div → 1 ≤ s → s ≤ 256 → st.deltaAbs ≤ rdev f (fcw d s)) →
      (∀ s, 1 ≤ s → s < fstep → st.deltaAbs ≤ rdev f (fcw div s)) →
      InvS f (innerScan f div r fstep st) ∧
      (innerScan f div r fstep st).deltaAbs ≤ st.deltaAbs ∧
      (∀ s, fstep ≤ s → s ≤ 256 → (innerScan f div r fstep st).deltaAbs ≤ rdev f (fcw div s)) := by
  intro r
  induction r with
  | zero =>
    intro fstep st hfs h257 hinv hH1 hH2
    simp only [innerScan]
    exact ⟨hinv, le_refl _, fun s hs1 hs2 => by omega⟩
  | succ r ih =>
    intro fstep st hfs h257 hinv hH1 hH2
    have hfs256 : fstep ≤ 256 := by omega
    have hΔ123 : st.deltaAbs ≤ 123 := hinv.1
    have hvbound : fcw div fstep < I32 := by
      have := fcw_le_31250 (d := div) (s := fstep) hfs256
      simp only [I32]
      omega
    have hmod : (f + st.deltaAbs) % U32 = f + st.deltaAbs := by
      apply Nat.mod_eq_of_lt
      simp only [I32] at hf
      simp only [U32]
      omega
    have hdev : udev f (fcw div fstep) = rdev f (fcw div fstep) := udev_eq_rdev hf hvbound
    by_cases hbr : fcw div fstep > (f + st.deltaAbs) % U32
    · -- pruning rule (a): all remaining steps overshoot by more than deltaAbs
      have hres : innerScan f div (r + 1) fstep st = st := by
        simp only [innerScan, if_pos hbr]
      rw [hres]
      refine ⟨hinv, le_refl _, ?_⟩
      intro s hs1 hs2
      rw [hmod] at hbr
      have hmono := fcw_mono_step (d := div) hs1
      unfold rdev
      rw [if_neg (by omega)]
      omega
    · by_cases himp : udev f (fcw div fstep) < st.deltaAbs
      · by_cases hz : udev f (fcw div fstep) = 0
        · -- an exact hit is recorded and the whole search stops
          have hres : innerScan f div (r + 1) fstep st = SState.mk 0 div fstep true := by
            simp only [innerScan, if_neg hbr, if_pos himp, if_pos hz]
          rw [hres]
          rw [hdev] at himp hz
          refine ⟨⟨by simp, by simp; omega, by simp, ?_⟩, by simp, by simp⟩
          intro _
          refine ⟨hdiv, hfs256, by simpa using hz, ?_⟩
          intro d s hs1 hs2 hlex
          simp only at hlex ⊢
          unfold pairLexLt at hlex
          rcases hlex with h | ⟨h1, h2⟩
          · have := hH1 d s h hs1 hs2
            omega
          · subst h1
            have := hH2 s hs1 h2
            omega
        · -- a strictly better pair is recorded and the scan continues
          have hres : innerScan f div (r + 1) fstep st =
              innerScan f div r (fstep + 1) (SState.mk (udev f (fcw div fstep)) div fstep st.exactHit) := by
            simp only [innerScan, if_neg hbr, if_pos himp, if_neg hz]
          rw [hres, hdev]
          rw [hdev] at himp hz
          have hinv1 : InvS f (SState.mk (rdev f (fcw div fstep)) div fstep st.exactHit) := by
            refine ⟨by simp; omega, by simp; omega, ?_, ?_⟩
            · intro hex
              simp only at hex
              have := hinv.2.2.1 hex
              omega
            · intro _
              refine ⟨hdiv, hfs256, rfl, ?_⟩
              intro d s hs1 hs2 hlex
              simp only at hlex ⊢
              unfold pairLexLt at hlex
              rcases hlex with h | ⟨h1, h2⟩
              · have := hH1 d s h hs1 hs2
                omega
              · subst h1
                have := hH2 s hs1 h2
                omega
          have hH1s : ∀ d s, d < div → 1 ≤ s → s ≤ 256 →
              (SState.mk (rdev f (fcw div fstep)) div fstep st.exactHit).deltaAbs ≤ rdev f (fcw d s) := by
            intro d s h h1 h2
            have := hH1 d s h h1 h2
            simp only
            omega
          have hH2s : ∀ s, 1 ≤ s → s < fstep + 1 →
              (SState.mk (rdev f (fcw div fstep)) div fstep st.exactHit).deltaAbs ≤ rdev f (fcw div s) := by
            intro s h1 h2
            simp only
            rcases Nat.lt_succ_iff_lt_or_eq.mp h2 with h | h
            · have := hH2 s h1 h
              omega
            · subst h
              exact le_refl _
          obtain ⟨ha, hb, hc⟩ := ih (fstep + 1) _ (by omega) (by omega) hinv1 hH1s hH2s
          simp only at hb
          refine ⟨ha, by omega, ?_⟩
          intro s hs1 hs2
          rcases eq_or_lt_of_le hs1 with h | h
          · rw [← h]
            omega
          · exact hc s (by omega) hs2
      · -- not an improvement
        by_cases hz : st.deltaAbs = 0
        · have hres : innerScan f div (r + 1) fstep st =
              SState.mk st.deltaAbs st.clk8mDiv st.swfstep true := by
            simp only [innerScan, if_neg hbr, if_neg himp, if_pos hz]
          rw [hres]
          obtain ⟨i1, i2, i3, i4⟩ := hinv
          refine ⟨⟨by simpa using i1, ?_, by intro _; simpa using hz, ?_⟩, by simp, ?_⟩
          · intro h0
            simp only at h0
            simpa using i2 h0
          · intro h1
            simp only at h1 ⊢
            exact i4 h1
          · intro s hs1 hs2
            simp only
            omega
        · have hres : innerScan f div (r + 1) fstep st = innerScan f div r (fstep + 1) st := by
            simp only [innerScan, if_neg hbr, if_neg himp, if_neg hz]
          rw [hres]
          rw [hdev] at himp
          have hH2s : ∀ s, 1 ≤ s → s < fstep + 1 → st.deltaAbs ≤ rdev f (fcw div s) := by
            intro s h1 h2
            rcases Nat.lt_succ_iff_lt_or_eq.mp h2 with h | h
            · exact hH2 s h1 h
            · subst h
              omega
          obtain ⟨ha, hb, hc⟩ := ih (fstep + 1) st (by omega) (by omega) hinv hH1 hH2s
          refine ⟨ha, hb, ?_⟩
          intro s hs1 hs2
          rcases eq_or_lt_of_le hs1 with h | h
          · rw [← h]
            omega
          · exact hc s (by omega) hs2

/-- Correctness of the outer divider loop: the invariant is preserved and,
on return, every pair of the whole search grid is accounted for — its true
deviation is at least the final best deviation. -/
theorem outerScan_spec (f : ℕ) (hf : f < I32) :
    ∀ r div st, div + r = 8 → InvS f st →
      (∀ d s, d < div → 1 ≤ s → s ≤ 256 → st.deltaAbs ≤ rdev f (fcw d s)) →
      InvS f (outerScan f r div st) ∧
      (outerScan f r div st).deltaAbs ≤ st.deltaAbs ∧
      (∀ d s, d ≤ 7 → 1 ≤ s → s ≤ 256 → (outerScan f r div st).deltaAbs ≤ rdev f (fcw d s)) := by
  intro r
  induction r with
  | zero =>
    intro div st hdr hinv hPre
    simp only [outerScan]
    exact ⟨hinv, le_refl _, fun d s h1 h2 h3 => hPre d s (by omega) h2 h3⟩
  | succ r ih =>
    intro div st hdr hinv hPre
    have hdiv7 : div ≤ 7 := by omega
    obtain ⟨ha, hb, hc⟩ := innerScan_spec f div hf hdiv7 SW_FSTEP_MAX 1 st (by omega)
      (by decide) hinv hPre (fun s h1 h2 => absurd h2 (by omega))
    simp only [outerScan]
    set st1 := innerScan f div SW_FSTEP_MAX 1 st with hst1
    have hPre1 : ∀ d s, d < div + 1 → 1 ≤ s → s ≤ 256 → st1.deltaAbs ≤ rdev f (fcw d s) := by
      intro d s h h1 h2
      rcases Nat.lt_succ_iff_lt_or_eq.mp h with h | h
      · exact le_trans hb (hPre d s h h1 h2)
      · subst h
        exact hc s h1 h2
    by_cases hex : st1.exactHit = true
    · rw [if_pos hex]
      have hΔ0 : st1.deltaAbs = 0 := ha.2.2.1 hex
      exact ⟨ha, by omega, fun d s _ _ _ => by omega⟩
    · rw [if_neg hex]
      by_cases hpr : toInt32 (fcw (div + 1) SW_FSTEP_MAX) <
          toInt32 (f + (U32 - st1.deltaAbs % U32))
      · rw [if_pos hpr]
        -- pruning rule (b): every later divider undershoots by more than deltaAbs
        have hΔ123 : st1.deltaAbs ≤ 123 := ha.1
        have hsmall : fcw (div + 1) SW_FSTEP_MAX < I32 := by
          have := fcw_le_31250 (d := div + 1) (s := SW_FSTEP_MAX) (by decide)
          simp only [I32]
          omega
        rw [toInt32_small hsmall, toInt32_sub hf hΔ123] at hpr
        have hpr2 : fcw (div + 1) SW_FSTEP_MAX + st1.deltaAbs < f := by omega
        refine ⟨ha, hb, ?_⟩
        intro d s hd7 h1 h2
        rcases Nat.lt_or_ge d (div + 1) with h | h
        · exact hPre1 d s h h1 h2
        · have hm1 : fcw d s ≤ fcw (div + 1) s := fcw_anti_div h
          have hm2 : fcw (div + 1) s ≤ fcw (div + 1) SW_FSTEP_MAX :=
            fcw_mono_step (by simp only [SW_FSTEP_MAX]; omega)
          unfold rdev
          rw [if_pos (by omega)]
          omega
      · rw [if_neg hpr]
        by_cases hle : div + 1 ≤ CK8M_DIV_MAX
        · rw [if_pos hle]
          obtain ⟨xa, xb, xc⟩ := ih (div + 1) st1 (by omega) ha hPre1
          exact ⟨xa, le_trans xb hb, xc⟩
        · rw [if_neg hle]
          simp only [CK8M_DIV_MAX] at hle
          refine ⟨ha, hb, ?_⟩
          intro d s hd7 h1 h2
          exact hPre1 d s (by omega) h1 h2

/-- Whenever `calcFrequSettings` succeeds on a target below `2^31`, the
returned pair lies in the search grid, minimises the true absolute
deviation over the whole grid, and is the lexicographically (= scan-order)
first pair attaining that minimum. -/
theorem calcFrequSettings_some_spec (f d0 s0 : ℕ) (hf : f < I32)
    (h : calcFrequSettings f = some (d0, s0)) :
    d0 ≤ 7 ∧ 1 ≤ s0 ∧ s0 ≤ 256 ∧
    (∀ d s, d ≤ 7 → 1 ≤ s → s ≤ 256 → rdev f (fcw d0 s0) ≤ rdev f (fcw d s)) ∧
    (∀ d s, 1 ≤ s → s ≤ 256 → pairLexLt (d, s) (d0, s0) →
      rdev f (fcw d0 s0) < rdev f (fcw d s)) := by
  have hinv0 : InvS f (SState.mk (CK8M / 65536 + 1) 0 0 false) := by
    refine ⟨by decide, fun _ => ⟨rfl, by decide⟩, by simp, ?_⟩
    intro h1
    exact absurd h1 (by decide)
  obtain ⟨hinv, hmono, hopt⟩ := outerScan_spec f hf (CK8M_DIV_MAX + 1) 0
    (SState.mk (CK8M / 65536 + 1) 0 0 false) (by decide) hinv0
    (fun d s h _ _ => absurd h (by omega))
  simp only [calcFrequSettings] at h
  set st := outerScan f (CK8M_DIV_MAX + 1) 0 (SState.mk (CK8M / 65536 + 1) 0 0 false) with hst
  by_cases hz : st.clk8mDiv = 0 ∧ st.swfstep = 0
  · rw [if_pos hz] at h
    exact absurd h (by simp)
  · rw [if_neg hz] at h
    have hpair : st.clk8mDiv = d0 ∧ st.swfstep = s0 := by
      have h2 := Option.some.inj h
      exact ⟨congrArg Prod.fst h2, congrArg Prod.snd h2⟩
    have hsw : 1 ≤ st.swfstep := by
      rcases Nat.eq_zero_or_pos st.swfstep with h0 | h0
      · exact absurd ⟨(hinv.2.1 h0).1, h0⟩ hz
      · exact h0
    obtain ⟨hd0, hs0⟩ := hpair
    subst hd0
    subst hs0
    obtain ⟨m1, m2, m3, m4⟩ := hinv.2.2.2 hsw
    refine ⟨m1, hsw, m2, ?_, ?_⟩
    · intro d s h1 h2 h3
      have := hopt d s h1 h2 h3
      omega
    · intro d s h1 h2 hlex
      have := m4 d s h1 h2 hlex
      omega

/-! ## The controller and registry state (src/DacESP32.h, src/DacESP32.cpp)

Hardware register writes (`REG_SET_FIELD`, `SET_PERI_REG_BITS`) act only on
the peripheral and are outside the modelled state; the vendor-driver calls
(`dac_oneshot_new_channel`, `dac_cosine_new_channel`, ...) are external
collaborators whose success or failure is supplied through a `DriverEnv`.
A driver handle is modelled by `Option`: `none` is the sentinel
`DAC_ONE_HANDLE_UNDEFINED` / `DAC_COS_HANDLE_UNDEFINED`; a cosine handle
carries its `is_started` flag (`struct dac_cosine_s_`). -/

/-- The `esp_err_t` values the modelled code produces or passes through. -/
inductive esp_err_t where
  | ESP_OK
  | ESP_FAIL
  | ESP_ERR_INVALID_ARG
  | ESP_ERR_NOT_SUPPORTED
  | ESP_ERR_DRIVER
deriving DecidableEq

/-- Model of `dac_channel_t` together with the out-of-domain sentinel
`DAC_CHAN_UNDEFINED = (dac_channel_t)-1`. -/
inductive dac_channel_t where
  | DAC_CHAN_0
  | DAC_CHAN_1
  | DAC_CHAN_UNDEFINED
deriving DecidableEq

/-- Attenuation levels: `dac_cosine_atten_t` is a C enum over `int`; the four named levels are
0..3 (vendor header, not under src).  Modelled as `ℤ` so that out-of-domain
arguments exist, as they do in C. -/
def DAC_COSINE_ATTEN_DB_0 : ℤ := 0

def DAC_COSINE_ATTEN_DB_6 : ℤ := 1

def DAC_COSINE_ATTEN_DB_12 : ℤ := 2

def DAC_COSINE_ATTEN_DB_18 : ℤ := 3

/-- Phase values of `dac_cosine_phase_t` (vendor header, not under src). -/
def DAC_COSINE_PHASE_0 : ℤ := 2

def DAC_COSINE_PHASE_180 : ℤ := 3

/-- Default value of `dac_cosine_clk_src_t` (vendor header; opaque to this model). -/
def DAC_COSINE_CLK_SRC_DEFAULT : ℤ := 0

def DAC_CW_OFFSET_DEFAULT : ℤ := 0

/-- Model of `dac_oneshot_config_t`. -/
structure dac_oneshot_config_t where
  chan_id : dac_channel_t
deriving DecidableEq

/-- Model of `dac_cosine_config_t` (the fields the library touches). -/
structure dac_cosine_config_t where
  chan_id : dac_channel_t
  freq_hz : ℕ
  clk_src : ℤ
  atten : ℤ
  phase : ℤ
  offset : ℤ
  force_set_freq : Bool
deriving DecidableEq

/-- The members of one `DacESP32` object. -/
structure DacESP32 where
  m_channel : dac_channel_t
  m_oneshot_value : ℤ
  m_oneshot_cfg : dac_oneshot_config_t
  m_oneshot_handle : Option Unit
  m_cosine_handle : Option Bool
  m_cosine_cfg : dac_cosine_config_t
deriving DecidableEq

/-- The class-static members, shared by all objects. -/
structure DacStatics where
  m_objectCount : ℕ
  m_cwFrequency : ℕ
  m_ch0_locked : Bool
  m_ch1_locked : Bool
deriving DecidableEq

/-- The values at static initialisation (lines 93–96 of the source). -/
def initialStatics : DacStatics := ⟨0, 0, false, false⟩

/-- Outcomes of the external vendor-driver calls a single operation may
perform.  The possible driver failures are threaded in, never invented by
the model. -/
structure DriverEnv where
  oneshotNew : esp_err_t
  oneshotOutput : esp_err_t
  cosineNew : esp_err_t
  cosineStartOk : Bool
deriving DecidableEq

/-- The constructor `DacESP32::DacESP32(dac_channel_t)`.

`init` stands for the indeterminate pre-construction contents of
`m_cosine_cfg`: the constructor leaves every cosine-config field except
`chan_id` unset on its failure paths (object-count overflow, channel
already locked, invalid channel).  The conditional `CK8M_DFREQ_ADJUSTED`
register write touches only hardware.  Returns the updated statics and the
constructed object. -/
def DacESP32.construct (g : DacStatics) (init : dac_cosine_config_t)
    (channel : dac_channel_t) : DacStatics × DacESP32 :=
  let obj0 : DacESP32 :=
    { m_channel := .DAC_CHAN_UNDEFINED
      m_oneshot_value := -1
      m_oneshot_cfg := ⟨.DAC_CHAN_UNDEFINED⟩
      m_oneshot_handle := none
      m_cosine_handle := none
      m_cosine_cfg := { init with chan_id := .DAC_CHAN_UNDEFINED } }
  let g1 : DacStatics := { g with m_objectCount := g.m_objectCount + 1 }
  if g1.m_objectCount > 2 then (g1, obj0)
  else
    match channel with
    | .DAC_CHAN_0 =>
      if g1.m_ch0_locked then (g1, obj0)
      else
        ({ g1 with m_ch0_locked := true },
         { obj0 with
            m_channel := .DAC_CHAN_0
            m_oneshot_cfg := ⟨.DAC_CHAN_0⟩
            m_cosine_cfg :=
              { chan_id := .DAC_CHAN_0
                freq_hz := g1.m_cwFrequency
                clk_src := DAC_COSINE_CLK_SRC_DEFAULT
                atten := DAC_COSINE_ATTEN_DB_0
                phase := DAC_COSINE_PHASE_0
                offset := DAC_CW_OFFSET_DEFAULT
                force_set_freq := true } })
    | .DAC_CHAN_1 =>
      if g1.m_ch1_locked then (g1, obj0)
      else
        ({ g1 with m_ch1_locked := true },
         { obj0 with
            m_channel := .DAC_CHAN_1
            m_oneshot_cfg := ⟨.DAC_CHAN_1⟩
            m_cosine_cfg :=
              { chan_id := .DAC_CHAN_1
                freq_hz := g1.m_cwFrequency
                clk_src := DAC_COSINE_CLK_SRC_DEFAULT
                atten := DAC_COSINE_ATTEN_DB_0
                phase := DAC_COSINE_PHASE_0
                offset := DAC_CW_OFFSET_DEFAULT
                force_set_freq := true } })
    | .DAC_CHAN_UNDEFINED => (g1, obj0)

/-- The destructor `DacESP32::~DacESP32`: deletes any live registrations
(driver calls), releases the lock of the owned channel, and decrements the
object counter.  (In any run reachable from `initialStatics` the counter is
positive here, so natural subtraction is exact.) -/
def DacESP32.destruct (g : DacStatics) (o : DacESP32) : DacStatics :=
  let g1 : DacStatics :=
    match o.m_channel with
    | .DAC_CHAN_0 => { g with m_ch0_locked := false }
    | .DAC_CHAN_1 => { g with m_ch1_locked := false }
    | .DAC_CHAN_UNDEFINED => g
  { g1 with m_objectCount := g1.m_objectCount - 1 }

/-- Model of `DacESP32::outputVoltage(uint8_t)`: checked against
`m_oneshot_cfg.chan_id`; stops and deletes a live cosine registration,
registers a oneshot channel if none is live (propagating the driver
error, with the handle still undefined, on failure), caches the value and
writes it through the driver. -/
def DacESP32.outputVoltage (env : DriverEnv) (g : DacStatics) (o : DacESP32)
    (value : ℕ) : esp_err_t × DacStatics × DacESP32 :=
  if o.m_oneshot_cfg.chan_id = .DAC_CHAN_UNDEFINED then (.ESP_FAIL, g, o)
  else
    let o1 : DacESP32 := { o with m_cosine_handle := none }
    if o1.m_oneshot_handle = none then
      if env.oneshotNew ≠ .ESP_OK then (env.oneshotNew, g, o1)
      else (env.oneshotOutput, g,
        { o1 with m_oneshot_handle := some (), m_oneshot_value := (value : ℤ) })
    else (env.oneshotOutput, g, { o1 with m_oneshot_value := (value : ℤ) })

/-- Model of `DacESP32::outputCW(uint32_t, dac_cosine_atten_t, dac_cosine_phase_t,
int8_t)` (default build, `CW_FREQUENCY_HIGH_ACCURACY` enabled): channel and
minimum-frequency checks, then — before the solver runs — the new
parameters overwrite the cached configuration and the shared frequency,
the cached oneshot value is reset, and both live registrations are torn
down.  Only then is `calcFrequSettings` consulted; on its failure the
error is returned in that already-torn-down state.  Otherwise the cosine
channel is registered anew (propagating driver errors), the divider/step
registers are written (hardware only) and the generator is started. -/
def DacESP32.outputCW4 (env : DriverEnv) (g : DacStatics) (o : DacESP32)
    (frequency : ℕ) (atten phase offset : ℤ) : esp_err_t × DacStatics × DacESP32 :=
  if o.m_cosine_cfg.chan_id = .DAC_CHAN_UNDEFINED then (.ESP_FAIL, g, o)
  else if frequency < 16 then (.ESP_ERR_NOT_SUPPORTED, g, o)
  else
    let g1 : DacStatics := { g with m_cwFrequency := frequency }
    let o1 : DacESP32 :=
      { o with
        m_cosine_cfg :=
          { o.m_cosine_cfg with
            freq_hz := frequency, atten := atten, phase := phase, offset := offset }
        m_oneshot_value := -1
        m_oneshot_handle := none
        m_cosine_handle := none }
    match calcFrequSettings frequency with
    | none => (.ESP_ERR_NOT_SUPPORTED, g1, o1)
    | some _ =>
      if env.cosineNew ≠ .ESP_OK then (env.cosineNew, g1, o1)
      else (.ESP_OK, g1, { o1 with m_cosine_handle := some env.cosineStartOk })

/-- Model of `DacESP32::outputCW(uint32_t)`: delegates with the cached scale, phase
and offset. -/
def DacESP32.outputCW (env : DriverEnv) (g : DacStatics) (o : DacESP32)
    (frequency : ℕ) : esp_err_t × DacStatics × DacESP32 :=
  DacESP32.outputCW4 env g o frequency o.m_cosine_cfg.atten o.m_cosine_cfg.phase
    o.m_cosine_cfg.offset

/-- Model of `DacESP32::setCwFrequency`: checks, consults the solver, and only on
success writes the new frequency to the cached config and the shared
static (the register writes for a live cosine channel touch hardware
only). -/
def DacESP32.setCwFrequency (g : DacStatics) (o : DacESP32)
    (frequency : ℕ) : esp_err_t × DacStatics × DacESP32 :=
  if o.m_channel = .DAC_CHAN_UNDEFINED then (.ESP_FAIL, g, o)
  else if frequency < 16 then (.ESP_ERR_NOT_SUPPORTED, g, o)
  else
    match calcFrequSettings frequency with
    | none => (.ESP_ERR_NOT_SUPPORTED, g, o)
    | some _ =>
      (.ESP_OK, { g with m_cwFrequency := frequency },
       { o with m_cosine_cfg := { o.m_cosine_cfg with freq_hz := frequency } })

/-- Model of `DacESP32::setCwScale`: rejects values outside the four attenuation
levels without touching anything; otherwise caches the value (the register
write for a live cosine channel touches hardware only). -/
def DacESP32.setCwScale (g : DacStatics) (o : DacESP32)
    (atten : ℤ) : esp_err_t × DacStatics × DacESP32 :=
  if o.m_channel = .DAC_CHAN_UNDEFINED then (.ESP_FAIL, g, o)
  else if atten ≠ DAC_COSINE_ATTEN_DB_0 ∧ atten ≠ DAC_COSINE_ATTEN_DB_6 ∧
      atten ≠ DAC_COSINE_ATTEN_DB_12 ∧ atten ≠ DAC_COSINE_ATTEN_DB_18 then
    (.ESP_ERR_INVALID_ARG, g, o)
  else (.ESP_OK, g, { o with m_cosine_cfg := { o.m_cosine_cfg with atten := atten } })

/-- Model of `DacESP32::setCwOffset`: no domain check at all — caches the offset and
reports success for every valid channel (the register write for a live
cosine channel touches hardware only). -/
def DacESP32.setCwOffset (g : DacStatics) (o : DacESP32)
    (offset : ℤ) : esp_err_t × DacStatics × DacESP32 :=
  if o.m_channel = .DAC_CHAN_UNDEFINED then (.ESP_FAIL, g, o)
  else (.ESP_OK, g, { o with m_cosine_cfg := { o.m_cosine_cfg with offset := offset } })

/-- Model of `DacESP32::setCwPhase`: rejects values outside the two phases. -/
def DacESP32.setCwPhase (g : DacStatics) (o : DacESP32)
    (phase : ℤ) : esp_err_t × DacStatics × DacESP32 :=
  if o.m_channel = .DAC_CHAN_UNDEFINED then (.ESP_FAIL, g, o)
  else if phase ≠ DAC_COSINE_PHASE_0 ∧ phase ≠ DAC_COSINE_PHASE_180 then
    (.ESP_ERR_INVALID_ARG, g, o)
  else (.ESP_OK, g, { o with m_cosine_cfg := { o.m_cosine_cfg with phase := phase } })

/-! ## `DacESP32::outputVoltage(float)` -/

/-- The value of `(float)CHANNEL_VOLTAGE_MAX` for the default
`CHANNEL_VOLTAGE_MAX = 3.30`: the binary32 nearest to `33/10`, namely
`13841203 * 2^(1-23) = 3.2999999523...` (`fVMAXf_rounds` verifies the
rounding). -/
def fVMAXf : F := ⟨13841203, 1⟩

/-- Byte computation of `outputVoltage(float)`: clamps the
voltage to `[0, (float)CHANNEL_VOLTAGE_MAX]` and computes
`(uint8_t)((voltage / (float)CHANNEL_VOLTAGE_MAX) * 255)` in binary32
arithmetic — a truncating C cast at the end. -/
def outputVoltageFloatByte (v : F) : ℕ :=
  let c := if Flt v Fzero then Fzero else if Flt fVMAXf v then fVMAXf else v
  Ftrunc (FmulNat (Fdiv c fVMAXf) 255)

/-- Model of `DacESP32::outputVoltage(float)` end to end: computes the 8-bit value
and hands it to `outputVoltage(uint8_t)`. -/
def DacESP32.outputVoltageFloat (env : DriverEnv) (g : DacStatics) (o : DacESP32)
    (v : F) : esp_err_t × DacStatics × DacESP32 :=
  DacESP32.outputVoltage env g o (outputVoltageFloatByte v)

instance (x : F) : Decidable (Fnormal x) := by
  unfold Fnormal
  infer_instance

theorem Fval_eq_zpow (x : F) : Fval x = (x.m : ℚ) * 2 ^ (x.e - 23) := by
  unfold Fval
  split
  · next h =>
    rw [← zpow_natCast (2 : ℚ) (x.e - 23).toNat, Int.toNat_of_nonneg (by omega)]
  · next h =>
    rw [div_eq_mul_inv, ← zpow_natCast (2 : ℚ) (23 - x.e).toNat, ← zpow_neg,
      Int.toNat_of_nonneg (show (0 : ℤ) ≤ 23 - x.e by omega),
      show (-(23 - x.e) : ℤ) = x.e - 23 by omega]

theorem Flt_iff (x y : F) : Flt x y ↔ Fval x < Fval y := by
  have key : ∀ (a : ℤ) (e : ℤ), min x.e y.e ≤ e →
      ((a * 2 ^ (e - min x.e y.e).toNat : ℤ) : ℚ) =
        (a : ℚ) * 2 ^ (e - 23) * 2 ^ (23 - min x.e y.e) := by
    intro a e he
    push_cast
    rw [← zpow_natCast (2 : ℚ) (e - min x.e y.e).toNat,
      Int.toNat_of_nonneg (by omega), mul_assoc,
      ← zpow_add₀ (show (2 : ℚ) ≠ 0 by norm_num)]
    rw [show (e - min x.e y.e : ℤ) = e - 23 + (23 - min x.e y.e) by omega]
  have h2 : (0 : ℚ) < 2 ^ (23 - min x.e y.e) := zpow_pos (by norm_num) _
  rw [Fval_eq_zpow, Fval_eq_zpow]
  unfold Flt
  rw [← mul_lt_mul_right h2, ← key x.m x.e (min_le_left _ _),
    ← key y.m y.e (min_le_right _ _)]
  exact Int.cast_lt.symm

theorem Fval_Fzero : Fval Fzero = 0 := by
  rw [Fval_eq_zpow]
  simp [Fzero]

theorem Fval_fVMAXf : Fval fVMAXf = 13841203 / 4194304 := by
  rw [Fval_eq_zpow]
  rw [show (fVMAXf.e - 23 : ℤ) = -22 by decide]
  rw [show (fVMAXf.m : ℚ) = 13841203 by norm_num [fVMAXf]]
  norm_num

/-- Facts about `fVMAXf`: it is normal, positive, and within half an ulp
(`2^(-23) * 2^1 / 2 = 1/8388608`) below `33/10`, i.e. it is the
round-to-nearest binary32 of `CHANNEL_VOLTAGE_MAX = 3.30`. -/
theorem fVMAXf_rounds :
    Fnormal fVMAXf ∧ 0 < Fval fVMAXf ∧ Fval fVMAXf ≤ 33 / 10 ∧
      33 / 10 - Fval fVMAXf < 1 / 8388608 := by
  refine ⟨by decide, ?_, ?_, ?_⟩ <;> rw [Fval_fVMAXf] <;> norm_num

/-! ## Mode exclusivity across operation sequences (outputVoltage / outputCW) -/

/-- One mode-changing public call on a controller, with the driver
outcomes it encounters. -/
inductive ChanOp where
  | voltage (env : DriverEnv) (value : ℕ)
  | voltageFloat (env : DriverEnv) (v : F)
  | cw (env : DriverEnv) (frequency : ℕ)
  | cw4 (env : DriverEnv) (frequency : ℕ) (atten phase offset : ℤ)

def applyChanOp (p : DacStatics × DacESP32) : ChanOp → DacStatics × DacESP32
  | .voltage env value => (DacESP32.outputVoltage env p.1 p.2 value).2
  | .voltageFloat env v => (DacESP32.outputVoltageFloat env p.1 p.2 v).2
  | .cw env frequency => (DacESP32.outputCW env p.1 p.2 frequency).2
  | .cw4 env frequency atten phase offset =>
      (DacESP32.outputCW4 env p.1 p.2 frequency atten phase offset).2

def runChanOps (p : DacStatics × DacESP32) : List ChanOp → DacStatics × DacESP32
  | [] => p
  | op :: ops => runChanOps (applyChanOp p op) ops

/-- At most one of the two hardware registrations is live. -/
def handleExclusive (o : DacESP32) : Prop :=
  o.m_oneshot_handle = none ∨ o.m_cosine_handle = none

theorem outputVoltage_exclusive (env : DriverEnv) (g : DacStatics) (o : DacESP32)
    (value : ℕ) (h : handleExclusive o) :
    handleExclusive (DacESP32.outputVoltage env g o value).2.2 := by
  unfold DacESP32.outputVoltage
  by_cases h1 : o.m_oneshot_cfg.chan_id = dac_channel_t.DAC_CHAN_UNDEFINED
  · rw [if_pos h1]
    exact h
  · rw [if_neg h1]
    unfold handleExclusive
    right
    dsimp only
    split_ifs <;> rfl

theorem outputCW4_exclusive (env : DriverEnv) (g : DacStatics) (o : DacESP32)
    (frequency : ℕ) (atten phase offset : ℤ) (h : handleExclusive o) :
    handleExclusive (DacESP32.outputCW4 env g o frequency atten phase offset).2.2 := by
  unfold DacESP32.outputCW4
  by_cases h1 : o.m_cosine_cfg.chan_id = dac_channel_t.DAC_CHAN_UNDEFINED
  · rw [if_pos h1]
    exact h
  · rw [if_neg h1]
    by_cases h2 : frequency < 16
    · rw [if_pos h2]
      exact h
    · rw [if_neg h2]
      unfold handleExclusive
      left
      dsimp only
      split
      · rfl
      · split_ifs <;> rfl

theorem applyChanOp_exclusive (p : DacStatics × DacESP32) (op : ChanOp)
    (h : handleExclusive p.2) : handleExclusive (applyChanOp p op).2 := by
  cases op with
  | voltage env value => exact outputVoltage_exclusive env p.1 p.2 value h
  | voltageFloat env v => exact outputVoltage_exclusive env p.1 p.2 _ h
  | cw env frequency => exact outputCW4_exclusive env p.1 p.2 frequency _ _ _ h
  | cw4 env frequency atten phase offset =>
      exact outputCW4_exclusive env p.1 p.2 frequency atten phase offset h

theorem runChanOps_exclusive :
    ∀ (ops : List ChanOp) (p : DacStatics × DacESP32), handleExclusive p.2 →
      handleExclusive (runChanOps p ops).2 := by
  intro ops
  induction ops with
  | nil => intro p h; exact h
  | cons op ops ih =>
    intro p h
    exact ih (applyChanOp p op) (applyChanOp_exclusive p op h)

/-- A freshly constructed controller has no live registration at all. -/
theorem construct_handles_none (g : DacStatics) (init : dac_cosine_config_t)
    (ch : dac_channel_t) :
    (DacESP32.construct g init ch).2.m_oneshot_handle = none ∧
    (DacESP32.construct g init ch).2.m_cosine_handle = none := by
  unfold DacESP32.construct
  cases ch <;> dsimp only <;> split_ifs <;> simp

/-! ## The channel registry across construction/destruction sequences -/

/-- A registry-changing event: constructing a controller (on a channel id,
with indeterminate pre-construction cosine-config memory) or destroying
the `i`-th live controller. -/
inductive RegOp where
  | mkObj (init : dac_cosine_config_t) (ch : dac_channel_t)
  | delObj (i : ℕ)

/-- The process-wide picture: the static registry state plus all live
controller objects. -/
structure World where
  g : DacStatics
  objs : List DacESP32

def regStep (w : World) : RegOp → World
  | .mkObj init ch =>
      ⟨(DacESP32.construct w.g init ch).1, w.objs ++ [(DacESP32.construct w.g init ch).2]⟩
  | .delObj i =>
      match w.objs[i]? with
      | none => w
      | some o => ⟨DacESP32.destruct w.g o, w.objs.eraseIdx i⟩

def regRun (w : World) : List RegOp → World
  | [] => w
  | op :: ops => regRun (regStep w op) ops

def initialWorld : World := ⟨initialStatics, []⟩

/-- Number of live controllers that hold channel `c`. -/
def holders (c : dac_channel_t) (w : World) : ℕ :=
  w.objs.countP (fun o => decide (o.m_channel = c))

/-- 1 when a claim flag is set, 0 otherwise. -/
def lockCount (b : Bool) : ℕ := if b then 1 else 0

/-- Number of channels whose claim flag is set. -/
def claimedCount (g : DacStatics) : ℕ :=
  lockCount g.m_ch0_locked + lockCount g.m_ch1_locked

/-- Registry invariant: the object counter counts the live controllers,
and each claim flag is set exactly when exactly one live controller holds
that channel. -/
def WInv (w : World) : Prop :=
  w.g.m_objectCount = w.objs.length ∧
  lockCount w.g.m_ch0_locked = holders .DAC_CHAN_0 w ∧
  lockCount w.g.m_ch1_locked = holders .DAC_CHAN_1 w

theorem countP_eraseIdx {α : Type} (p : α → Bool) :
    ∀ (l : List α) (i : ℕ) (o : α), l[i]? = some o →
      l.countP p = (l.eraseIdx i).countP p + (if p o then 1 else 0) := by
  intro l
  induction l with
  | nil =>
    intro i o h
    simp at h
  | cons a t ih =>
    intro i o h
    cases i with
    | zero =>
      simp only [List.getElem?_cons_zero, Option.some.injEq] at h
      subst h
      simp [List.eraseIdx, List.countP_cons]
    | succ j =>
      simp only [List.getElem?_cons_succ] at h
      simp only [List.eraseIdx, List.countP_cons, ih j o h]
      omega

theorem length_eraseIdx_of_getElem {α : Type} :
    ∀ (l : List α) (i : ℕ) (o : α), l[i]? = some o →
      l.length = (l.eraseIdx i).length + 1 := by
  intro l
  induction l with
  | nil =>
    intro i o h
    simp at h
  | cons a t ih =>
    intro i o h
    cases i with
    | zero => simp [List.eraseIdx]
    | succ j =>
      simp only [List.getElem?_cons_succ] at h
      simp only [List.eraseIdx, List.length_cons, ih j o h]

theorem countP_disjoint_le_length {α : Type} (p q : α → Bool)
    (hpq : ∀ a, p a = true → q a = false) :
    ∀ l : List α, l.countP p + l.countP q ≤ l.length := by
  intro l
  induction l with
  | nil => simp
  | cons a t ih =>
    simp only [List.countP_cons, List.length_cons]
    by_cases hp : p a = true
    · have hq := hpq a hp
      rw [if_pos hp, if_neg (by simp [hq])]
      omega
    · rw [if_neg hp]
      split_ifs <;> omega

theorem getElem_append_singleton {α : Type} :
    ∀ (l : List α) (a : α), (l ++ [a])[l.length]? = some a := by
  intro l a
  induction l with
  | nil => rfl
  | cons b t ih => simp [ih]

theorem lockCount_le_one (b : Bool) : lockCount b ≤ 1 := by
  cases b <;> simp [lockCount]

theorem countP_concat {α : Type} (p : α → Bool) (l : List α) (a : α) :
    (l ++ [a]).countP p = l.countP p + (if p a then 1 else 0) := by
  simp [List.countP_append, List.countP_cons]

/-- Characterisation of the constructor: the counter always grows by one,
the shared frequency is untouched, and either the construction failed
(channel left at the undefined sentinel, both claim flags untouched) or it
claimed exactly the free requested channel. -/
theorem construct_spec (g : DacStatics) (init : dac_cosine_config_t) (ch : dac_channel_t) :
    (DacESP32.construct g init ch).1.m_objectCount = g.m_objectCount + 1 ∧
    (DacESP32.construct g init ch).1.m_cwFrequency = g.m_cwFrequency ∧
    ((DacESP32.construct g init ch).2.m_channel = .DAC_CHAN_UNDEFINED ∧
       (DacESP32.construct g init ch).1.m_ch0_locked = g.m_ch0_locked ∧
       (DacESP32.construct g init ch).1.m_ch1_locked = g.m_ch1_locked ∨
     (DacESP32.construct g init ch).2.m_channel = .DAC_CHAN_0 ∧ ch = .DAC_CHAN_0 ∧
       g.m_ch0_locked = false ∧
       (DacESP32.construct g init ch).1.m_ch0_locked = true ∧
       (DacESP32.construct g init ch).1.m_ch1_locked = g.m_ch1_locked ∨
     (DacESP32.construct g init ch).2.m_channel = .DAC_CHAN_1 ∧ ch = .DAC_CHAN_1 ∧
       g.m_ch1_locked = false ∧
       (DacESP32.construct g init ch).1.m_ch1_locked = true ∧
       (DacESP32.construct g init ch).1.m_ch0_locked = g.m_ch0_locked) := by
  unfold DacESP32.construct
  cases ch <;> dsimp only <;> split_ifs <;> simp_all

theorem lockCount_true : lockCount true = 1 := rfl

theorem lockCount_false : lockCount false = 0 := rfl

theorem winv_initial : WInv initialWorld := by
  refine ⟨rfl, ?_, ?_⟩ <;> simp [initialWorld, initialStatics, holders, lockCount]

theorem winv_mkObj (w : World) (init : dac_cosine_config_t) (ch : dac_channel_t)
    (h : WInv w) : WInv (regStep w (.mkObj init ch)) := by
  obtain ⟨h1, h2, h3⟩ := h
  obtain ⟨hg1, hg2, hcc⟩ := construct_spec w.g init ch
  unfold holders at h2 h3
  unfold WInv holders
  unfold regStep
  dsimp only
  rw [List.length_append, countP_concat, countP_concat]
  rcases hcc with ⟨hA, hB, hC⟩ | ⟨hA, hch, hB, hC, hD⟩ | ⟨hA, hch, hB, hC, hD⟩
  · rw [hg1, hB, hC]
    simp only [hA]
    rw [if_neg (by decide), if_neg (by decide)]
    refine ⟨by simp; omega, by omega, by omega⟩
  · rw [hg1, hC, hD]
    rw [hB, lockCount_false] at h2
    simp only [hA]
    rw [if_pos (by decide), if_neg (by decide), lockCount_true]
    refine ⟨by simp; omega, by omega, by omega⟩
  · rw [hg1, hC, hD]
    rw [hB, lockCount_false] at h3
    simp only [hA]
    rw [if_neg (by decide), if_pos (by decide), lockCount_true]
    refine ⟨by simp; omega, by omega, by omega⟩

theorem winv_delObj (w : World) (i : ℕ) (h : WInv w) : WInv (regStep w (.delObj i)) := by
  obtain ⟨h1, h2, h3⟩ := h
  unfold regStep
  dsimp only
  split
  · exact ⟨h1, h2, h3⟩
  · next o hsome =>
    have hlen := length_eraseIdx_of_getElem w.objs i o hsome
    have hc0 := countP_eraseIdx (fun x => decide (x.m_channel = dac_channel_t.DAC_CHAN_0))
      w.objs i o hsome
    have hc1 := countP_eraseIdx (fun x => decide (x.m_channel = dac_channel_t.DAC_CHAN_1))
      w.objs i o hsome
    simp only at hc0 hc1
    unfold holders at h2 h3
    unfold WInv holders
    unfold DacESP32.destruct
    cases hch : o.m_channel
    · simp only [hch] at hc0 hc1
      rw [if_pos (by decide)] at hc0
      rw [if_neg (by decide)] at hc1
      dsimp only
      have hle := lockCount_le_one w.g.m_ch0_locked
      refine ⟨by omega, ?_, by omega⟩
      rw [lockCount_false]
      omega
    · simp only [hch] at hc0 hc1
      rw [if_neg (by decide)] at hc0
      rw [if_pos (by decide)] at hc1
      dsimp only
      have hle := lockCount_le_one w.g.m_ch1_locked
      refine ⟨by omega, by omega, ?_⟩
      rw [lockCount_false]
      omega
    · simp only [hch] at hc0 hc1
      rw [if_neg (by decide)] at hc0
      rw [if_neg (by decide)] at hc1
      dsimp only
      refine ⟨by omega, by omega, by omega⟩

theorem winv_run : ∀ (ops : List RegOp) (w : World), WInv w → WInv (regRun w ops) := by
  intro ops
  induction ops with
  | nil =>
    intro w h
    exact h
  | cons op ops ih =>
    intro w h
    refine ih (regStep w op) ?_
    cases op with
    | mkObj init ch => exact winv_mkObj w init ch h
    | delObj i => exact winv_delObj w i h

/-! ## Shared concrete fixtures for counterexamples and witnesses -/

/-- Driver environment in which every vendor call succeeds. -/
def envOK : DriverEnv := ⟨.ESP_OK, .ESP_OK, .ESP_OK, true⟩

/-- Arbitrary concrete pre-construction contents for `m_cosine_cfg`. -/
def cfgJunk : dac_cosine_config_t := ⟨.DAC_CHAN_UNDEFINED, 0, 0, 0, 0, 0, false⟩

/-- A concrete controller that successfully claimed channel 0. -/
def oLive : DacESP32 :=
  ⟨.DAC_CHAN_0, -1, ⟨.DAC_CHAN_0⟩, none, none, ⟨.DAC_CHAN_0, 1000, 0, 0, 2, 0, true⟩⟩

/-! ## Claim C1 -/

/-- C1, counterexample.  At the `uint32_t` target 4294967295 the solver
succeeds — the wrapped deviation makes small achieved frequencies look
close to the huge target — and returns `(7, 1)`, although the grid pair
`(0, 256)` has a strictly smaller true absolute deviation, so the returned
pair is not globally optimal in the claimed sense. -/
theorem calcFrequSettings_not_optimal_at_wraparound :
    calcFrequSettings 4294967295 = some (7, 1) ∧
    rdev 4294967295 (fcw 0 256) < rdev 4294967295 (fcw 7 1) ∧
    (0 : ℕ) ≤ CK8M_DIV_MAX ∧ (1 : ℕ) ≤ 256 ∧ (256 : ℕ) ≤ SW_FSTEP_MAX := by
  decide

/-- C1, amended.  For every target frequency below `2^31` (so that no
`uint32_t` wraparound occurs in the deviation arithmetic) on which
`calcFrequSettings` succeeds, the returned `(clkdiv, sw_fstep)` pair has an
achieved frequency whose absolute deviation from the target is at most the
deviation of every other pair with divider in `[0, CK8M_DIV_MAX]` and step
in `[1, SW_FSTEP_MAX]` — global optimality despite the two pruning
rules. -/
theorem calcFrequSettings_globally_optimal (f d0 s0 : ℕ) (hf : f < 2 ^ 31)
    (h : calcFrequSettings f = some (d0, s0)) :
    ∀ d s, d ≤ CK8M_DIV_MAX → 1 ≤ s → s ≤ SW_FSTEP_MAX →
      rdev f (fcw d0 s0) ≤ rdev f (fcw d s) := by
  intro d s h1 h2 h3
  have hfI : f < I32 := by
    simp only [I32]
    omega
  obtain ⟨-, -, -, hopt, -⟩ := calcFrequSettings_some_spec f d0 s0 hfI h
  simp only [CK8M_DIV_MAX] at h1
  simp only [SW_FSTEP_MAX] at h3
  exact hopt d s h1 h2 h3

theorem calcFrequSettings_globally_optimal_witness :
    (1000 : ℕ) < 2 ^ 31 ∧ calcFrequSettings 1000 = some (4, 41) ∧
      rdev 1000 (fcw 4 41) ≤ rdev 1000 (fcw 0 8) :=
  ⟨by decide, by decide,
    calcFrequSettings_globally_optimal 1000 4 41 (by decide) (by decide) 0 8
      (by decide) (by decide) (by decide)⟩

/-! ## Claim C5 -/

/-- C5, counterexample.  At the `uint32_t` target 4294967295 the pair
`(1, 1)`, scanned earlier, has a strictly smaller absolute deviation than
the finally returned `(7, 1)`: the best pair was repeatedly replaced by
candidates whose absolute deviation is larger (the code compares the
wrapped deviation instead), contradicting the claimed
strict-improvement-only replacement policy. -/
theorem calcFrequSettings_best_replaced_at_wraparound :
    calcFrequSettings 4294967295 = some (7, 1) ∧
    pairLexLt (1, 1) (7, 1) ∧
    rdev 4294967295 (fcw 1 1) < rdev 4294967295 (fcw 7 1) := by
  decide

/-- C5, amended.  For targets below `2^31` the claimed replacement policy
holds: the returned pair is the scan-order (lexicographically) first pair
attaining the minimum absolute deviation — only strictly better candidates
replace the current best, ties keep the earlier pair (smaller divider,
then smaller step), and a deviation-0 hit is returned immediately. -/
theorem calcFrequSettings_first_minimum_wins (f d0 s0 : ℕ) (hf : f < 2 ^ 31)
    (h : calcFrequSettings f = some (d0, s0)) :
    ∀ d s, d ≤ CK8M_DIV_MAX → 1 ≤ s → s ≤ SW_FSTEP_MAX →
      rdev f (fcw d s) = rdev f (fcw d0 s0) → ¬pairLexLt (d, s) (d0, s0) := by
  intro d s h1 h2 h3 heq hlex
  have hfI : f < I32 := by
    simp only [I32]
    omega
  obtain ⟨-, -, -, -, hstrict⟩ := calcFrequSettings_some_spec f d0 s0 hfI h
  simp only [SW_FSTEP_MAX] at h3
  have := hstrict d s h2 h3 hlex
  omega

theorem calcFrequSettings_first_minimum_wins_witness :
    ¬pairLexLt (4, 41) (4, 41) :=
  calcFrequSettings_first_minimum_wins 1000 4 41 (by decide) (by decide) 4 41
    (by decide) (by decide) (by decide) rfl

/-! ## Claim C2 -/

def c2Step0 : DacStatics × DacESP32 :=
  DacESP32.construct initialStatics cfgJunk .DAC_CHAN_0

def c2Step1 : esp_err_t × DacStatics × DacESP32 :=
  DacESP32.outputVoltage envOK c2Step0.1 c2Step0.2 100

def c2Step2 : esp_err_t × DacStatics × DacESP32 :=
  DacESP32.outputCW4 envOK c2Step1.2.1 c2Step1.2.2 100000 DAC_COSINE_ATTEN_DB_0
    DAC_COSINE_PHASE_0 0

/-- C2, counterexample.  A freshly constructed channel-0 controller with a
live static-voltage registration (cached value 100, shared frequency still
0) calls `outputCW(100000)`; the frequency passes the pre-check, the
solver rejects it and the call returns the error — but the oneshot
registration has already been deleted, the cached oneshot value reset to
-1 and the shared generator frequency overwritten with 100000: the
previous mode is not left as it was. -/
theorem outputCW_teardown_before_solver_counterexample :
    c2Step1.2.2.m_oneshot_handle = some () ∧
    c2Step1.2.2.m_oneshot_value = 100 ∧
    c2Step1.2.1.m_cwFrequency = 0 ∧
    c2Step2.1 = .ESP_ERR_NOT_SUPPORTED ∧
    c2Step2.2.2.m_oneshot_handle = none ∧
    c2Step2.2.2.m_oneshot_value = -1 ∧
    c2Step2.2.1.m_cwFrequency = 100000 := by
  decide

/-- C2, amended.  When `outputCW` fails because the solver returns
out-of-range, the error is returned before any new registration is
created, but the old mode is already gone: both handles are undefined, the
cached oneshot value is reset to -1, and the cached cosine configuration
and the shared generator frequency already hold the new parameters —
tear-down happens before the solver runs, not after it succeeds. -/
theorem outputCW_solver_failure_state (env : DriverEnv) (g : DacStatics) (o : DacESP32)
    (frequency : ℕ) (atten phase offset : ℤ)
    (hch : o.m_cosine_cfg.chan_id ≠ .DAC_CHAN_UNDEFINED)
    (hf : 16 ≤ frequency)
    (hsolver : calcFrequSettings frequency = none) :
    DacESP32.outputCW4 env g o frequency atten phase offset =
      (.ESP_ERR_NOT_SUPPORTED,
       { g with m_cwFrequency := frequency },
       { o with
          m_cosine_cfg :=
            { o.m_cosine_cfg with
              freq_hz := frequency, atten := atten, phase := phase, offset := offset }
          m_oneshot_value := -1
          m_oneshot_handle := none
          m_cosine_handle := none }) := by
  unfold DacESP32.outputCW4
  rw [if_neg hch, if_neg (by omega)]
  dsimp only
  rw [hsolver]

theorem outputCW_solver_failure_state_witness :
    DacESP32.outputCW4 envOK ⟨1, 1000, true, false⟩
        ⟨.DAC_CHAN_0, 100, ⟨.DAC_CHAN_0⟩, some (), none, ⟨.DAC_CHAN_0, 1000, 0, 0, 2, 0, true⟩⟩
        100000 0 2 0 =
      (.ESP_ERR_NOT_SUPPORTED, ⟨1, 100000, true, false⟩,
       ⟨.DAC_CHAN_0, -1, ⟨.DAC_CHAN_0⟩, none, none,
        ⟨.DAC_CHAN_0, 100000, 0, 0, 2, 0, true⟩⟩) :=
  outputCW_solver_failure_state envOK ⟨1, 1000, true, false⟩
    ⟨.DAC_CHAN_0, 100, ⟨.DAC_CHAN_0⟩, some (), none, ⟨.DAC_CHAN_0, 1000, 0, 0, 2, 0, true⟩⟩
    100000 0 2 0 (by decide) (by decide) (by decide)

/-! ## Claim C3 -/

/-- C3.  Constructing a controller on a channel id whose claim flag is
already set fails — the channel of the new controller stays the undefined
sentinel — and leaves both claim flags exactly as they were; and across
every sequence of constructions and destructions, at most one live
controller holds a claim on each channel id. -/
theorem channel_claim_exclusive :
    (∀ (g : DacStatics) (init : dac_cosine_config_t),
      (DacESP32.construct { g with m_ch0_locked := true } init .DAC_CHAN_0).2.m_channel =
          .DAC_CHAN_UNDEFINED ∧
      (DacESP32.construct { g with m_ch0_locked := true } init .DAC_CHAN_0).1.m_ch0_locked =
          true ∧
      (DacESP32.construct { g with m_ch0_locked := true } init .DAC_CHAN_0).1.m_ch1_locked =
          g.m_ch1_locked) ∧
    (∀ (g : DacStatics) (init : dac_cosine_config_t),
      (DacESP32.construct { g with m_ch1_locked := true } init .DAC_CHAN_1).2.m_channel =
          .DAC_CHAN_UNDEFINED ∧
      (DacESP32.construct { g with m_ch1_locked := true } init .DAC_CHAN_1).1.m_ch1_locked =
          true ∧
      (DacESP32.construct { g with m_ch1_locked := true } init .DAC_CHAN_1).1.m_ch0_locked =
          g.m_ch0_locked) ∧
    (∀ ops : List RegOp,
      holders .DAC_CHAN_0 (regRun initialWorld ops) ≤ 1 ∧
      holders .DAC_CHAN_1 (regRun initialWorld ops) ≤ 1) := by
  refine ⟨?_, ?_, ?_⟩
  · intro g init
    unfold DacESP32.construct
    dsimp only
    split_ifs <;> simp_all
  · intro g init
    unfold DacESP32.construct
    dsimp only
    split_ifs <;> simp_all
  · intro ops
    obtain ⟨-, h2, h3⟩ := winv_run ops initialWorld winv_initial
    exact ⟨h2 ▸ lockCount_le_one _, h3 ▸ lockCount_le_one _⟩

/-! ## Claim C4 -/

/-- C4.  Starting from a freshly constructed controller, after every
sequence of `outputVoltage` / `outputCW` calls — whatever their arguments
and whatever the driver outcomes — at most one of `m_oneshot_handle` and
`m_cosine_handle` is defined: the registration of the old mode is always
torn down before that of the new mode is created, so a channel is never registered
for both static-voltage output and waveform generation at once. -/
theorem mode_registrations_mutually_exclusive
    (g : DacStatics) (init : dac_cosine_config_t) (ch : dac_channel_t)
    (ops : List ChanOp) :
    handleExclusive (runChanOps (DacESP32.construct g init ch) ops).2 :=
  runChanOps_exclusive ops (DacESP32.construct g init ch)
    (Or.inl (construct_handles_none g init ch).1)

/-! ## Claim C6 -/

/-- Specification-side byte value, modelled from the words of the spec: clamp
the voltage to `[0, CHANNEL_VOLTAGE_MAX]` (3.30) and round
`v / CHANNEL_VOLTAGE_MAX * 255` to the nearest integer. -/
def roundSpecByte (v : ℚ) : ℤ :=
  ⌊(if v < 0 then 0 else if v > 33 / 10 then 33 / 10 else v) / (33 / 10) * 255 + 1 / 2⌋

/-- C6, counterexample.  For the binary32 input `0.02f`
(value `10737418 * 2^(-6-23)`), the specified rounding yields 2 but the
code produces 1: the C cast truncates rather than rounds. -/
theorem outputVoltage_float_truncates_counterexample :
    outputVoltageFloatByte ⟨10737418, -6⟩ = 1 ∧
    roundSpecByte (Fval ⟨10737418, -6⟩) = 2 := by
  constructor
  · decide
  · have hv : Fval ⟨10737418, -6⟩ = 10737418 / 536870912 := by
      rw [Fval_eq_zpow]
      norm_num
    unfold roundSpecByte
    rw [hv, if_neg (by norm_num), if_neg (by norm_num), Int.floor_eq_iff]
    constructor <;> norm_num

/-- C6, amended.  `outputVoltage(float)` first clamps the voltage to
`[0, (float)CHANNEL_VOLTAGE_MAX]` and then passes the TRUNCATED value
of `v / CHANNEL_VOLTAGE_MAX * 255` (binary32 arithmetic, truncating cast)
to `outputVoltage(uint8_t)`; in particular nonpositive voltages map to 0,
voltages at or above the maximum map to 255, and the input `0.02f` maps to
1 where rounding would give 2. -/
theorem outputVoltage_float_clamps_then_truncates :
    (∀ v : F, Fval v ≤ 0 → outputVoltageFloatByte v = 0) ∧
    (∀ v : F, Fval fVMAXf < Fval v → outputVoltageFloatByte v = 255) ∧
    outputVoltageFloatByte fVMAXf = 255 ∧
    outputVoltageFloatByte ⟨10737418, -6⟩ = 1 := by
  have hpos : 0 < Fval fVMAXf := by
    rw [Fval_fVMAXf]
    norm_num
  refine ⟨?_, ?_, by decide, by decide⟩
  · intro v hv
    unfold outputVoltageFloatByte
    dsimp only
    by_cases h1 : Flt v Fzero
    · rw [if_pos h1]
      exact (by decide : Ftrunc (FmulNat (Fdiv Fzero fVMAXf) 255) = 0)
    · rw [if_neg h1]
      have hge : 0 ≤ Fval v := by
        have hnot := h1
        rw [Flt_iff, Fval_Fzero] at hnot
        exact le_of_not_lt hnot
      have hv0 : Fval v = 0 := le_antisymm hv hge
      have hm0 : v.m = 0 := by
        rw [Fval_eq_zpow] at hv0
        rcases mul_eq_zero.mp hv0 with h | h
        · exact_mod_cast h
        · exact absurd h (zpow_ne_zero _ (by norm_num))
      have h2 : ¬Flt fVMAXf v := by
        rw [Flt_iff, hv0]
        exact not_lt.mpr (le_of_lt hpos)
      rw [if_neg h2]
      unfold Fdiv
      rw [if_pos hm0]
      exact (by decide : Ftrunc (FmulNat Fzero 255) = 0)
  · intro v hv
    unfold outputVoltageFloatByte
    dsimp only
    have h1 : ¬Flt v Fzero := by
      rw [Flt_iff, Fval_Fzero]
      exact not_lt.mpr (le_of_lt (lt_trans hpos hv))
    have h2 : Flt fVMAXf v := (Flt_iff _ _).mpr hv
    rw [if_neg h1, if_pos h2]
    exact (by decide : Ftrunc (FmulNat (Fdiv fVMAXf fVMAXf) 255) = 255)

theorem outputVoltage_float_clamps_then_truncates_witness :
    outputVoltageFloatByte ⟨-8388608, 0⟩ = 0 ∧ outputVoltageFloatByte ⟨8388608, 2⟩ = 255 :=
  ⟨outputVoltage_float_clamps_then_truncates.1 ⟨-8388608, 0⟩
      (by rw [Fval_eq_zpow]; norm_num),
   outputVoltage_float_clamps_then_truncates.2.1 ⟨8388608, 2⟩
      (by rw [Fval_fVMAXf, Fval_eq_zpow]; norm_num)⟩

/-! ## Claim C7 -/

/-- C7.  For a controller with a valid channel, `setCwScale` rejects every
attenuation outside the four allowed levels with the invalid-argument
error, leaving the controller and the shared state entirely unchanged; an
allowed level updates the cached scale and returns success. -/
theorem setCwScale_validates_attenuation (g : DacStatics) (o : DacESP32) (atten : ℤ)
    (hch : o.m_channel ≠ .DAC_CHAN_UNDEFINED) :
    (atten ≠ DAC_COSINE_ATTEN_DB_0 ∧ atten ≠ DAC_COSINE_ATTEN_DB_6 ∧
        atten ≠ DAC_COSINE_ATTEN_DB_12 ∧ atten ≠ DAC_COSINE_ATTEN_DB_18 →
      DacESP32.setCwScale g o atten = (.ESP_ERR_INVALID_ARG, g, o)) ∧
    (atten = DAC_COSINE_ATTEN_DB_0 ∨ atten = DAC_COSINE_ATTEN_DB_6 ∨
        atten = DAC_COSINE_ATTEN_DB_12 ∨ atten = DAC_COSINE_ATTEN_DB_18 →
      DacESP32.setCwScale g o atten =
        (.ESP_OK, g, { o with m_cosine_cfg := { o.m_cosine_cfg with atten := atten } })) := by
  constructor
  · intro hbad
    unfold DacESP32.setCwScale
    rw [if_neg hch, if_pos hbad]
  · intro hgood
    unfold DacESP32.setCwScale
    rw [if_neg hch, if_neg (by tauto)]

theorem setCwScale_validates_attenuation_witness :
    DacESP32.setCwScale initialStatics oLive 7 = (.ESP_ERR_INVALID_ARG, initialStatics, oLive) ∧
    DacESP32.setCwScale initialStatics oLive DAC_COSINE_ATTEN_DB_12 =
      (.ESP_OK, initialStatics,
       { oLive with m_cosine_cfg := { oLive.m_cosine_cfg with atten := DAC_COSINE_ATTEN_DB_12 } }) :=
  ⟨(setCwScale_validates_attenuation initialStatics oLive 7 (by decide)).1 (by decide),
   (setCwScale_validates_attenuation initialStatics oLive DAC_COSINE_ATTEN_DB_12
      (by decide)).2 (Or.inr (Or.inr (Or.inl rfl)))⟩

/-! ## Claim C8 -/

/-- C8, counterexample.  Constructing twice on channel 0 — the second
claim fails — leaves two live controllers but only one claimed channel:
`m_objectCount` is 2 while the number of claimed channels is 1, so the
counter does not equal the number of claimed channels. -/
theorem objectCount_counts_unclaimed_objects :
    (regRun initialWorld
        [.mkObj cfgJunk .DAC_CHAN_0, .mkObj cfgJunk .DAC_CHAN_0]).g.m_objectCount = 2 ∧
    claimedCount (regRun initialWorld
        [.mkObj cfgJunk .DAC_CHAN_0, .mkObj cfgJunk .DAC_CHAN_0]).g = 1 := by
  decide

/-- C8, amended.  Along every sequence of constructions and destructions,
`m_objectCount` equals the number of LIVE CONTROLLERS (whether or not
their claim succeeded); the number of claimed channels never exceeds it —
so it reaches zero only when no channel holds a claim — and constructing
then destroying a controller restores it to its prior value. -/
theorem objectCount_equals_live_controllers :
    (∀ ops : List RegOp,
      (regRun initialWorld ops).g.m_objectCount = (regRun initialWorld ops).objs.length ∧
      claimedCount (regRun initialWorld ops).g ≤ (regRun initialWorld ops).g.m_objectCount ∧
      ((regRun initialWorld ops).g.m_objectCount = 0 →
        claimedCount (regRun initialWorld ops).g = 0)) ∧
    (∀ (w : World) (init : dac_cosine_config_t) (ch : dac_channel_t),
      (regStep (regStep w (.mkObj init ch)) (.delObj w.objs.length)).g.m_objectCount =
        w.g.m_objectCount) := by
  constructor
  · intro ops
    obtain ⟨h1, h2, h3⟩ := winv_run ops initialWorld winv_initial
    have hle := countP_disjoint_le_length
      (fun o => decide (o.m_channel = dac_channel_t.DAC_CHAN_0))
      (fun o => decide (o.m_channel = dac_channel_t.DAC_CHAN_1))
      (by intro a ha; simp only [decide_eq_true_eq] at ha; simp [ha])
      (regRun initialWorld ops).objs
    unfold holders at h2 h3
    unfold claimedCount
    refine ⟨h1, by omega, by omega⟩
  · intro w init ch
    obtain ⟨hg1, -, -⟩ := construct_spec w.g init ch
    unfold regStep
    dsimp only
    rw [getElem_append_singleton]
    dsimp only
    unfold DacESP32.destruct
    cases hc2 : (DacESP32.construct w.g init ch).2.m_channel <;> dsimp only <;> omega

theorem objectCount_equals_live_controllers_witness :
    claimedCount (regRun initialWorld []).g = 0 :=
  (objectCount_equals_live_controllers.1 []).2.2 (by decide)

/-! ## Claim C9 -/

/-- C9.  For a controller with a valid channel, `setCwOffset` accepts
every signed 8-bit offset: it performs no domain validation, never returns
the invalid-argument error, always caches the offset, and returns
success. -/
theorem setCwOffset_accepts_all_int8 (g : DacStatics) (o : DacESP32) (offset : ℤ)
    (hch : o.m_channel ≠ .DAC_CHAN_UNDEFINED) (hlo : -128 ≤ offset) (hhi : offset ≤ 127) :
    DacESP32.setCwOffset g o offset =
      (.ESP_OK, g, { o with m_cosine_cfg := { o.m_cosine_cfg with offset := offset } }) := by
  unfold DacESP32.setCwOffset
  rw [if_neg hch]

theorem setCwOffset_accepts_all_int8_witness :
    DacESP32.setCwOffset initialStatics oLive (-128) =
      (.ESP_OK, initialStatics,
       { oLive with m_cosine_cfg := { oLive.m_cosine_cfg with offset := -128 } }) :=
  setCwOffset_accepts_all_int8 initialStatics oLive (-128) (by decide) (by decide) (by decide)

/-! ## Claim C10 -/

/-- C10.  The per-object cached waveform frequency stays coherent with the
process-wide shared frequency: a successfully constructed controller
initialises `m_cosine_cfg.freq_hz` from `m_cwFrequency` (which the
constructor never changes); and whenever `outputCW` or `setCwFrequency`
reaches its frequency write, it assigns the same new value to both, so
afterwards the cached frequency of the acting controller equals the shared
frequency. -/
theorem cached_and_shared_frequency_coherent :
    (∀ (g : DacStatics) (init : dac_cosine_config_t) (ch : dac_channel_t),
      (DacESP32.construct g init ch).2.m_channel ≠ .DAC_CHAN_UNDEFINED →
      (DacESP32.construct g init ch).2.m_cosine_cfg.freq_hz = g.m_cwFrequency ∧
      (DacESP32.construct g init ch).1.m_cwFrequency = g.m_cwFrequency) ∧
    (∀ (env : DriverEnv) (g : DacStatics) (o : DacESP32) (frequency : ℕ)
        (atten phase offset : ℤ),
      o.m_cosine_cfg.chan_id ≠ .DAC_CHAN_UNDEFINED → 16 ≤ frequency →
      (DacESP32.outputCW4 env g o frequency atten phase offset).2.2.m_cosine_cfg.freq_hz =
          frequency ∧
      (DacESP32.outputCW4 env g o frequency atten phase offset).2.1.m_cwFrequency =
          frequency) ∧
    (∀ (g : DacStatics) (o : DacESP32) (frequency : ℕ) (r : ℕ × ℕ),
      o.m_channel ≠ .DAC_CHAN_UNDEFINED → 16 ≤ frequency →
      calcFrequSettings frequency = some r →
      (DacESP32.setCwFrequency g o frequency).2.2.m_cosine_cfg.freq_hz = frequency ∧
      (DacESP32.setCwFrequency g o frequency).2.1.m_cwFrequency = frequency) := by
  refine ⟨?_, ?_, ?_⟩
  · intro g init ch
    unfold DacESP32.construct
    cases ch <;> dsimp only <;> split_ifs <;> intro h <;>
      first
        | exact ⟨rfl, rfl⟩
        | exact absurd rfl h
  · intro env g o frequency atten phase offset h1 h2
    unfold DacESP32.outputCW4
    rw [if_neg h1, if_neg (by omega)]
    dsimp only
    split
    · exact ⟨rfl, rfl⟩
    · split_ifs <;> exact ⟨rfl, rfl⟩
  · intro g o frequency r h1 h2 hsolve
    unfold DacESP32.setCwFrequency
    rw [if_neg h1, if_neg (by omega), hsolve]
    exact ⟨rfl, rfl⟩

theorem cached_and_shared_frequency_coherent_witness :
    ((DacESP32.construct initialStatics cfgJunk .DAC_CHAN_0).2.m_cosine_cfg.freq_hz =
        initialStatics.m_cwFrequency ∧
      (DacESP32.construct initialStatics cfgJunk .DAC_CHAN_0).1.m_cwFrequency =
        initialStatics.m_cwFrequency) ∧
    ((DacESP32.setCwFrequency initialStatics oLive 1000).2.2.m_cosine_cfg.freq_hz = 1000 ∧
      (DacESP32.setCwFrequency initialStatics oLive 1000).2.1.m_cwFrequency = 1000) :=
  ⟨cached_and_shared_frequency_coherent.1 initialStatics cfgJunk .DAC_CHAN_0 (by decide),
   cached_and_shared_frequency_coherent.2.2 initialStatics oLive 1000 (4, 41)
     (by decide) (by decide) (by decide)⟩
